import Mathlib

/-!
Shallow embedding of the core of `extract_image_taken_datetime.py`:
the `ExifTool` persistent-worker protocol adapter (lifecycle, batch
submission, sentinel-framed response reading, existence-mask
re-expansion) and the `DatetimeKeyValue` datetime-resolution engine
(priority-ordered tag search, EXIF date-separator normalization,
default-timezone attachment), plus the "naive local timestamp"
UNIX-epoch projection of `__extract_image_taken_datetime`.

External collaborators are modelled as explicit parameters:
`dateutil.parser.parse` and `json.loads` as function arguments
(`parse`, `jsonParse`), the filesystem as a `pathExists` predicate,
and the worker's stdout as the list of lines `readline` yields.
Timezones (`zoneinfo.ZoneInfo` / `datetime.timezone`) are modelled as
fixed UTC offsets in microseconds; a `datetime.datetime` is a naive
wall-clock value (microseconds since the epoch, reading the wall
clock as if it were UTC) together with an optional timezone.
Logging, the progress heuristic and `time.monotonic` have no effect
on any returned value and are not modelled.
-/

/-- Python `str.strip()` whitespace set, restricted to ASCII
(the source only ever strips ASCII worker output lines). -/
def isPySpace (c : Char) : Bool :=
  c == ' ' || c == '\t' || c == '\n' || c == '\r' || c == '\x0b' || c == '\x0c'

/-- Python `str.strip()`: drop leading and trailing whitespace. -/
def pyStrip (s : String) : String :=
  ⟨((s.data.dropWhile isPySpace).reverse.dropWhile isPySpace).reverse⟩

/-- The pattern `\d{4}:\d{2}:\d{2}` of `__RE_EXIFDATE_FORMAT`, tested
on ten consecutive characters.  `\d` is modelled as an ASCII digit. -/
def exifDateCond (y1 y2 y3 y4 c1 m1 m2 c2 d1 d2 : Char) : Bool :=
  y1.isDigit && y2.isDigit && y3.isDigit && y4.isDigit && c1 == ':'
    && m1.isDigit && m2.isDigit && c2 == ':' && d1.isDigit && d2.isDigit

/-- Model of `DatetimeKeyValue.__RE_EXIFDATE_FORMAT.sub(r'\1-\2-\3', value)`:
left-to-right, non-overlapping replacement of every occurrence of the
pattern `\d{4}:\d{2}:\d{2}` by the same digits with `-` separators. -/
def subExifDateFuel : Nat → List Char → List Char
  | 0, l => l
  | _ + 1, [] => []
  | fuel + 1, y1 :: rest1 =>
    match rest1 with
    | y2 :: y3 :: y4 :: c1 :: m1 :: m2 :: c2 :: d1 :: d2 :: rest =>
      if exifDateCond y1 y2 y3 y4 c1 m1 m2 c2 d1 d2 then
        y1 :: y2 :: y3 :: y4 :: '-' :: m1 :: m2 :: '-' :: d1 :: d2 :: subExifDateFuel fuel rest
      else
        y1 :: subExifDateFuel fuel rest1
    | _ => y1 :: rest1

/-- The scan itself.  Each step consumes at least one character, so a
fuel of `l.length` always runs the scan to the end of the string (the
fuel only makes the recursion structural; see `subExifDateFuel_congr`). -/
def subExifDate (l : List Char) : List Char :=
  subExifDateFuel l.length l

/-- Line 550 of the source: `adjusted_value = cls.__RE_EXIFDATE_FORMAT.sub(r'\1-\2-\3', raw_value)`. -/
def adjustExifDate (s : String) : String :=
  ⟨subExifDate s.data⟩

/-- Modelled from the spec: the spec's words for the normalization pass,
"rewrites a `YYYY:MM:DD` date prefix ... to `YYYY-MM-DD` ... leaving the
remainder of the string unchanged" — only a leading date pattern is
rewritten, the rest of the string is kept as is.  Stated for comparison
with `adjustExifDate`, which is the translation of the source. -/
def specPrefixOnlyNormalize (s : String) : String :=
  match s.data with
  | y1 :: y2 :: y3 :: y4 :: c1 :: m1 :: m2 :: c2 :: d1 :: d2 :: rest =>
    if exifDateCond y1 y2 y3 y4 c1 m1 m2 c2 d1 d2 then
      ⟨y1 :: y2 :: y3 :: y4 :: '-' :: m1 :: m2 :: '-' :: d1 :: d2 :: rest⟩
    else s
  | _ => s

/-- A `tzinfo`, modelled as a fixed UTC offset in microseconds. -/
structure Tz where
  offset : Int
deriving DecidableEq

/-- Model of `datetime.timezone.utc`. -/
def utcTz : Tz := ⟨0⟩

/-- A `datetime.datetime`: the naive wall-clock value, encoded as
microseconds since 1970-01-01T00:00:00 reading the wall clock as if it
were UTC, together with the optional attached `tzinfo`. -/
structure PyDatetime where
  wall : Int
  tzinfo : Option Tz
deriving DecidableEq

/-- Model of `dt.replace(tzinfo=...)`: swap the attached timezone, keep the wall clock. -/
def PyDatetime.replaceTz (dt : PyDatetime) (tz : Option Tz) : PyDatetime :=
  { dt with tzinfo := tz }

/-- Model of `dt.timestamp()` for an aware datetime: epoch microseconds
(wall clock minus UTC offset).  `none` for a naive datetime, whose
Python `timestamp()` would consult the system timezone (never done on
a naive value in this program). -/
def PyDatetime.timestamp? (dt : PyDatetime) : Option Int :=
  dt.tzinfo.map (fun z => dt.wall - z.offset)

/-- Model of `dt.astimezone(z)` for an aware datetime: same instant, wall clock
shifted into `z`.  `none` for a naive datetime (which Python would
interpret in the system timezone; never done in this program). -/
def PyDatetime.astimezone? (dt : PyDatetime) (z : Tz) : Option PyDatetime :=
  dt.tzinfo.map (fun o => ⟨dt.wall - o.offset + z.offset, some z⟩)

/-- A worker metadata record: one parsed JSON object, tag name to
string value.  `recordGet` below is Python `dict.get`: a JSON-null or
absent tag both yield `none`, which is exactly how the source treats
them (both `continue`). -/
abbrev Record := List (String × String)

/-- Python `each_dict.get(target_key)`. -/
def recordGet (r : Record) (k : String) : Option String :=
  (r.find? (fun kv => kv.1 == k)).map (fun kv => kv.2)

/-- The `DatetimeKeyValue` pydantic model: matched tag, raw string
value, and resolved datetime (all `None` for the empty candidate). -/
structure DatetimeKeyValue where
  key : Option String
  raw_value : Option String
  datetime_value : Option PyDatetime
deriving DecidableEq

/-- Lines 558-559 of the source: `if dt.tzinfo is None: dt =
dt.replace(tzinfo=default_timezone)`. -/
def attachDefault (default_timezone : Tz) (dt : PyDatetime) : PyDatetime :=
  if dt.tzinfo.isNone then dt.replaceTz (some default_timezone) else dt

/-- The inner `for target_key in target_key_list: ... else:` loop of
`DatetimeKeyValue.get_datetime_value_by_key` for one record.
`parse` stands for `dateutil.parser.parse`, with `none` modelling
`dateutil.parser.ParserError`. -/
def resolveRecord (parse : String → Option PyDatetime) (r : Record)
    (target_key_list : List String) (default_timezone : Tz) : DatetimeKeyValue :=
  match target_key_list with
  | [] => ⟨none, none, none⟩
  | target_key :: rest =>
    match recordGet r target_key with
    | none => resolveRecord parse r rest default_timezone
    | some raw_value =>
      match parse (adjustExifDate raw_value) with
      | none => resolveRecord parse r rest default_timezone
      | some dt =>
        ⟨some target_key, some raw_value, some (attachDefault default_timezone dt)⟩

/-- Model of `DatetimeKeyValue.get_datetime_value_by_key`: one candidate per
input record, an empty candidate for a `None` (missing-file) record. -/
def getDatetimeValueByKey (parse : String → Option PyDatetime)
    (dict_list : List (Option Record)) (target_key_list : List String)
    (default_timezone : Tz) : List DatetimeKeyValue :=
  dict_list.map (fun d =>
    match d with
    | none => ⟨none, none, none⟩
    | some r => resolveRecord parse r target_key_list default_timezone)

/-- The tag `k` does not contribute a parsed datetime for record `r`:
either absent (or JSON-null), or its normalized value fails to parse. -/
def tagFails (parse : String → Option PyDatetime) (r : Record) (k : String) : Prop :=
  match recordGet r k with
  | none => True
  | some v => parse (adjustExifDate v) = none

instance (parse : String → Option PyDatetime) (r : Record) (k : String) :
    Decidable (tagFails parse r k) :=
  match h : recordGet r k with
  | none => isTrue (by simp [tagFails, h])
  | some v => decidable_of_iff (parse (adjustExifDate v) = none) (by simp [tagFails, h])

/-- The tag `k` is present in `r` with a value whose normalization parses. -/
def tagParses (parse : String → Option PyDatetime) (r : Record) (k : String) : Prop :=
  match recordGet r k with
  | none => False
  | some v => (parse (adjustExifDate v)).isSome = true

instance (parse : String → Option PyDatetime) (r : Record) (k : String) :
    Decidable (tagParses parse r k) :=
  match h : recordGet r k with
  | none => isFalse (by simp [tagParses, h])
  | some v => decidable_of_iff ((parse (adjustExifDate v)).isSome = true) (by simp [tagParses, h])

/-- The observable state of the `subprocess.Popen` handle: whether the
`stdin` / `stdout` attributes are connected (non-`None`).  `__enter__`
always creates both as pipes; note that `__exit__` closing a stream
does not make the attribute `None`, so these stay `true`. -/
structure ProcHandle where
  stdinOk : Bool
  stdoutOk : Bool
deriving DecidableEq

/-- The mutable state of an `ExifTool` instance: the configured
`__target_tags` and the `__process` field (`none` = Python `None`). -/
structure ExifTool where
  targetTags : List String
  process : Option ProcHandle
deriving DecidableEq

/-- The exceptions `ExifTool.__enter__` can raise. -/
inductive LifecycleErr
  | alreadyEntered
deriving DecidableEq

/-- The exceptions `ExifTool.execute_on_files` can raise:
`RuntimeError` outside a `with` block, `IOError` on missing streams,
`FileNotFoundError` when every path is missing, `RuntimeError` on
stream end before the sentinel, `RuntimeError` on broken JSON, and the
unguarded `IndexError` from `result_list.pop(0)`. -/
inductive ExifErr
  | notInWith
  | noStream
  | allFilesMissing
  | workerTerminated
  | brokenJson
  | indexError
deriving DecidableEq

/-- Model of `ExifTool.__enter__` (lines 361-379): raises if `__process` is not
`None`, otherwise starts the worker with piped stdin/stdout. -/
def ExifTool.enterCtx (et : ExifTool) : Except LifecycleErr ExifTool :=
  match et.process with
  | some _ => .error .alreadyEntered
  | none => .ok { et with process := some ⟨true, true⟩ }

/-- Model of `ExifTool.__exit__` (lines 381-408): returns immediately if
`__process` is `None`; otherwise best-effort writes the shutdown
directive, closes the streams and terminates the process.  None of
those steps assigns to `self.__process` (and closing a stream does not
reset the `stdin`/`stdout` attributes to `None`), so the instance
state is unchanged. -/
def ExifTool.exitCtx (et : ExifTool) : ExifTool :=
  match et.process with
  | none => et
  | some _ => et

/-- The `while True` read loop (lines 459-475): `readline` until a
line whose `strip()` is `'{ready}'`; a `''` readline (end of stream,
modelled by the exhausted list or an explicit `""` element) is the
`WorkerTerminatedUnexpectedly` error, modelled as `none`.  Progress
logging has no effect on the accumulated lines and is not modelled. -/
def readUntilReady : List String → Option (List String)
  | [] => none
  | line :: rest =>
    if line = "" then none
    else if pyStrip line = "{ready}" then some []
    else (readUntilReady rest).map (fun acc => line :: acc)

/-- Modelled from the spec: the claim's words for the read loop, with
the stop condition "a line exactly equal to the sentinel `{ready}`
(string equality of the line)" in place of the source's
`line.strip() == '{ready}'`.  Stated for comparison with
`readUntilReady`, which is the translation of the source. -/
def readUntilReadyExact : List String → Option (List String)
  | [] => none
  | line :: rest =>
    if line = "" then none
    else if line = "{ready}" then some []
    else (readUntilReadyExact rest).map (fun acc => line :: acc)

/-- Number of `True` entries of an existence mask. -/
def countTrue : List Bool → Nat
  | [] => 0
  | b :: rest => if b then countTrue rest + 1 else countTrue rest

/-- Line 497: `[result_list.pop(0) if _exists else None for _exists in
exists_list]`.  `pop(0)` on an exhausted list is Python's `IndexError`,
modelled as `none`; records left over after the last `True` are
dropped, as in the source. -/
def reexpand {α : Type} : List Bool → List α → Option (List (Option α))
  | [], _ => some []
  | false :: mask, recs => (reexpand mask recs).map (fun out => none :: out)
  | true :: _, [] => none
  | true :: mask, rec :: recs => (reexpand mask recs).map (fun out => some rec :: out)

/-- Model of `ExifTool.execute_on_files` (lines 410-498).  `jsonParse` stands
for `json.loads` specialised to a JSON array of string-to-string
objects (`none` = `JSONDecodeError`); `pathExists` for
`os.path.exists` at submission time; `stdoutLines` for the sequence of
lines the worker's stdout yields.  The stdin writes, the progress
heuristic and the missing-target-tag warning loop (lines 487-495) only
log and are not modelled. -/
def executeOnFiles (et : ExifTool) (jsonParse : String → Option (List Record))
    (stdoutLines : List String) (pathExists : String → Bool)
    (file_paths_list : List String) : Except ExifErr (List (Option Record)) :=
  match et.process with
  | none => .error .notInWith
  | some p =>
    if !p.stdinOk || !p.stdoutOk then .error .noStream
    else if file_paths_list.isEmpty then .ok []
    else if (file_paths_list.filter pathExists).isEmpty then .error .allFilesMissing
    else
      match readUntilReady stdoutLines with
      | none => .error .workerTerminated
      | some lines_list =>
        match jsonParse (String.join lines_list) with
        | none => .error .brokenJson
        | some result_list =>
          match reexpand (file_paths_list.map pathExists) result_list with
          | none => .error .indexError
          | some full_result_list => .ok full_result_list

/-- Days from 1970-01-01 of a proleptic-Gregorian civil date
(the standard era-based algorithm; all divisions are on nonnegative
values, so `Int` truncated division is exact). -/
def daysFromCivil (y m d : Int) : Int :=
  let y' := if m ≤ 2 then y - 1 else y
  let era := (if 0 ≤ y' then y' else y' - 399) / 400
  let yoe := y' - era * 400
  let doy := (153 * (m + (if 2 < m then -3 else 9)) + 2) / 5 + d - 1
  let doe := yoe * 365 + yoe / 4 - yoe / 100 + doy
  era * 146097 + doe - 719468

/-- Epoch microseconds of a civil UTC datetime. -/
def civilToEpochMicros (y m d h mi s : Int) : Int :=
  ((daysFromCivil y m d * 86400 + h * 3600 + mi * 60 + s)) * 1000000

/-- Zero-padded six-digit rendering of a microsecond remainder. -/
def pad6 (n : Nat) : String :=
  let s := toString n
  ⟨List.replicate (6 - s.length) '0'⟩ ++ s

/-- Model of `f'{x:.6f}'` for a float that is exactly `m` microseconds:
sign-magnitude decimal with six fractional digits.  (Float rounding is
not modelled; every value this program formats is an integer number of
microseconds.) -/
def formatMicros6 (m : Int) : String :=
  (if m < 0 then "-" else "")
    ++ toString (m.natAbs / 1000000) ++ "." ++ pad6 (m.natAbs % 1000000)

/-- Lines 660-669: `dtorg.datetime_value.astimezone(LOCAL_TIMEZONE_FOR_
UNIX_TIMESTAMP).replace(tzinfo=None)` per candidate (or `None`). -/
def localObjOfCandidate (local_timezone : Tz) (c : DatetimeKeyValue) : Option PyDatetime :=
  match c.datetime_value with
  | none => none
  | some dt => (dt.astimezone? local_timezone).map (fun l => l.replaceTz none)

/-- Lines 670-677: `f'{l_obj.replace(tzinfo=datetime.timezone.utc).timestamp():.6f}'`
per local naive object (or `None`). -/
def localUnixOfObj (lobj : Option PyDatetime) : Option String :=
  match lobj with
  | none => none
  | some l => ((l.replaceTz (some utcTz)).timestamp?).map formatMicros6

/-! Concrete instantiations used by the witness theorems. -/

/-- A model of `dateutil.parser.parse` for the spec's scenario: the
normalized string `2022-01-02 03:04:05` parses to the naive datetime
2022-01-02T03:04:05; everything else fails. -/
def parseW (s : String) : Option PyDatetime :=
  if s = "2022-01-02 03:04:05" then some ⟨civilToEpochMicros 2022 1 2 3 4 5, none⟩ else none

/-- A model of `dateutil.parser.parse` for the first-match scenario:
tag values `GOODB` and `GOODC` parse (to a naive and an aware datetime
respectively), everything else fails. -/
def parse2W (s : String) : Option PyDatetime :=
  if s = "GOODB" then some ⟨civilToEpochMicros 2022 1 2 3 4 5, none⟩
  else if s = "GOODC" then some ⟨0, some ⟨3600000000⟩⟩
  else none

/-- The scenario record `{"EXIF:DateTimeOriginal": "2022:01:02 03:04:05"}`. -/
def recW : Record := [("EXIF:DateTimeOriginal", "2022:01:02 03:04:05")]

/-- A record where tag `A` is present but unparsable and tags `B`, `C`
are both present and parsable. -/
def rW : Record := [("A", "badvalue"), ("B", "GOODB"), ("C", "GOODC")]

/-- An `ExifTool` instance inside its `with` block, streams connected. -/
def etW : ExifTool := ⟨[], some ⟨true, true⟩⟩

/-- A worker stdout stream: one record line, then the sentinel. -/
def linesW : List String := ["REC\n", "{ready}\n"]

/-- A model of `json.loads` mapping the accumulated payload `"REC\n"`
to a one-record array. -/
def jsonParseW (s : String) : Option (List Record) :=
  if s = "REC\n" then some [recW] else none

/-- A model of `json.loads` mapping the accumulated payload `"REC\n"`
to an empty array (worker returned fewer records than existing paths). -/
def jsonParseEmptyW (s : String) : Option (List Record) :=
  if s = "REC\n" then some [] else none

/-- Existence check for `fpsW`: only `"a"` exists. -/
def pexistsW (s : String) : Bool := s == "a"

/-- A two-path batch whose second path does not exist. -/
def fpsW : List String := ["a", "missing"]

/-- The reconciled result for `fpsW`. -/
def resW : List (Option Record) := [some recW, none]


/-! Helper lemmas. -/

theorem subExifDateFuel_congr (f1 : Nat) :
    ∀ (f2 : Nat) (l : List Char), l.length ≤ f1 → l.length ≤ f2 →
      subExifDateFuel f1 l = subExifDateFuel f2 l := by
  induction f1 with
  | zero =>
    intro f2 l h1 _
    have hl : l = [] := List.eq_nil_of_length_eq_zero (Nat.le_zero.mp h1)
    subst hl
    cases f2 <;> rfl
  | succ f ih =>
    intro f2 l h1 h2
    cases l with
    | nil => cases f2 <;> rfl
    | cons y1 rest1 =>
      cases f2 with
      | zero => simp at h2
      | succ g =>
        rcases rest1 with _ | ⟨y2, _ | ⟨y3, _ | ⟨y4, _ | ⟨c1, _ | ⟨m1, _ | ⟨m2, _ | ⟨c2, _ | ⟨d1, _ | ⟨d2, rest⟩⟩⟩⟩⟩⟩⟩⟩⟩
        case succ.cons.succ.cons.cons.cons.cons.cons.cons.cons.cons.cons =>
          simp only [List.length_cons] at h1 h2
          simp only [subExifDateFuel]
          by_cases hc : exifDateCond y1 y2 y3 y4 c1 m1 m2 c2 d1 d2 = true
          · simp only [hc, if_true]
            have := ih g rest (by omega) (by omega)
            rw [this]
          · rw [if_neg hc, if_neg hc]
            have := ih g (y2 :: y3 :: y4 :: c1 :: m1 :: m2 :: c2 :: d1 :: d2 :: rest)
              (by simp only [List.length_cons]; omega) (by simp only [List.length_cons]; omega)
            rw [this]
        all_goals rfl

theorem subExifDateFuel_eq (f : Nat) (l : List Char) (h : l.length ≤ f) :
    subExifDateFuel f l = subExifDate l :=
  subExifDateFuel_congr f l.length l h (Nat.le_refl _)

theorem reexpand_length {α : Type} :
    ∀ (mask : List Bool) (recs : List α) (out : List (Option α)),
      reexpand mask recs = some out → out.length = mask.length := by
  intro mask
  induction mask with
  | nil =>
    intro recs out h
    simp only [reexpand, Option.some.injEq] at h
    subst h
    rfl
  | cons b mask ih =>
    intro recs out h
    cases b with
    | false =>
      simp only [reexpand, Option.map_eq_some'] at h
      obtain ⟨a, ha, rfl⟩ := h
      simp [ih recs a ha]
    | true =>
      cases recs with
      | nil => simp [reexpand] at h
      | cons r recs =>
        simp only [reexpand, Option.map_eq_some'] at h
        obtain ⟨a, ha, rfl⟩ := h
        simp [ih recs a ha]

theorem reexpand_get {α : Type} :
    ∀ (mask : List Bool) (recs : List α) (out : List (Option α)),
      reexpand mask recs = some out →
      ∀ (i : Nat) (h1 : i < mask.length) (h2 : i < out.length),
        (out[i] = none ↔ mask[i] = false) := by
  intro mask
  induction mask with
  | nil => intro recs out h i h1 h2; simp at h1
  | cons b mask ih =>
    intro recs out h i h1 h2
    cases b with
    | false =>
      simp only [reexpand, Option.map_eq_some'] at h
      obtain ⟨a, ha, rfl⟩ := h
      cases i with
      | zero => simp
      | succ j =>
        simp only [List.getElem_cons_succ]
        exact ih recs a ha j (by simpa using h1) (by simpa using h2)
    | true =>
      cases recs with
      | nil => simp [reexpand] at h
      | cons r recs =>
        simp only [reexpand, Option.map_eq_some'] at h
        obtain ⟨a, ha, rfl⟩ := h
        cases i with
        | zero => simp
        | succ j =>
          simp only [List.getElem_cons_succ]
          exact ih recs a ha j (by simpa using h1) (by simpa using h2)

theorem reexpand_filterMap {α : Type} :
    ∀ (mask : List Bool) (recs : List α) (out : List (Option α)),
      reexpand mask recs = some out →
      out.filterMap id = recs.take (countTrue mask) := by
  intro mask
  induction mask with
  | nil =>
    intro recs out h
    simp only [reexpand, Option.some.injEq] at h
    subst h
    simp [countTrue]
  | cons b mask ih =>
    intro recs out h
    cases b with
    | false =>
      simp only [reexpand, Option.map_eq_some'] at h
      obtain ⟨a, ha, rfl⟩ := h
      simpa [countTrue] using ih recs a ha
    | true =>
      cases recs with
      | nil => simp [reexpand] at h
      | cons r recs =>
        simp only [reexpand, Option.map_eq_some'] at h
        obtain ⟨a, ha, rfl⟩ := h
        simpa [countTrue] using ih recs a ha

theorem reexpand_eq_none_iff {α : Type} :
    ∀ (mask : List Bool) (recs : List α),
      reexpand mask recs = none ↔ recs.length < countTrue mask := by
  intro mask
  induction mask with
  | nil => intro recs; simp [reexpand, countTrue]
  | cons b mask ih =>
    intro recs
    cases b with
    | false => simpa [reexpand, countTrue, Option.map_eq_none'] using ih recs
    | true =>
      cases recs with
      | nil => simp [reexpand, countTrue]
      | cons r recs =>
        simp only [reexpand, countTrue, Option.map_eq_none', List.length_cons, if_true]
        rw [ih recs]
        omega

theorem subExifDate_cons_match (y1 y2 y3 y4 c1 m1 m2 c2 d1 d2 : Char) (rest : List Char)
    (h : exifDateCond y1 y2 y3 y4 c1 m1 m2 c2 d1 d2 = true) :
    subExifDate (y1 :: y2 :: y3 :: y4 :: c1 :: m1 :: m2 :: c2 :: d1 :: d2 :: rest)
      = y1 :: y2 :: y3 :: y4 :: '-' :: m1 :: m2 :: '-' :: d1 :: d2 :: subExifDate rest := by
  show subExifDateFuel (rest.length + 9 + 1)
      (y1 :: y2 :: y3 :: y4 :: c1 :: m1 :: m2 :: c2 :: d1 :: d2 :: rest) = _
  simp only [subExifDateFuel, h, if_true]
  rw [subExifDateFuel_eq (rest.length + 9) rest (by omega)]

/-- C2: `get_datetime_value_by_key` selects the first tag in priority
order that is present with a non-null value and whose normalized value
parses as a datetime; a tag whose value fails to parse is skipped and
the scan continues, and once a tag parses the scan stops, so the tags
after it (parsable or not) cannot influence the result. -/
theorem resolve_first_match (parse : String → Option PyDatetime) (r : Record) (tz : Tz)
    (ks₁ : List String) (k : String) (ks₂ : List String)
    (h1 : ∀ k' ∈ ks₁, tagFails parse r k')
    (h2 : tagParses parse r k) :
    (resolveRecord parse r (ks₁ ++ k :: ks₂) tz).key = some k ∧
    resolveRecord parse r (ks₁ ++ k :: ks₂) tz = resolveRecord parse r (ks₁ ++ [k]) tz := by
  induction ks₁ with
  | nil =>
    simp only [List.nil_append]
    rcases hg : recordGet r k with _ | v
    · simp only [tagParses, hg] at h2
    · simp only [tagParses, hg] at h2
      rcases hp : parse (adjustExifDate v) with _ | dt
      · rw [hp] at h2; simp at h2
      · exact ⟨by simp [resolveRecord, hg, hp], by simp [resolveRecord, hg, hp]⟩
  | cons k' ks₁ ih =>
    have hf : tagFails parse r k' := h1 k' (List.mem_cons_self _ _)
    have ih' := ih (fun q hq => h1 q (List.mem_cons_of_mem _ hq))
    rcases hg : recordGet r k' with _ | v
    · simpa only [List.cons_append, resolveRecord, hg] using ih'
    · simp only [tagFails, hg] at hf
      simpa only [List.cons_append, resolveRecord, hg, hf] using ih'

theorem resolve_first_match_witness :
    (resolveRecord parse2W rW ["A", "B", "C"] utcTz).key = some "B" ∧
    tagParses parse2W rW "C" := by
  refine ⟨(resolve_first_match parse2W rW utcTz ["A"] "B" ["C"] (by decide) (by decide)).1, by decide⟩

/-- C3: when the scan stops at tag `k` whose value `v` parsed to `dt`,
the emitted candidate's datetime is `attachDefault tz dt`: a naive
parse result gets exactly the configured default timezone attached
(same wall clock), and a parse result carrying an explicit offset is
kept unchanged, never overwritten by the default. -/
theorem resolve_timezone_attachment (parse : String → Option PyDatetime) (r : Record)
    (ks : List String) (tz : Tz) (k v : String) (dt : PyDatetime)
    (hk : (resolveRecord parse r ks tz).key = some k)
    (hv : recordGet r k = some v)
    (hp : parse (adjustExifDate v) = some dt) :
    (resolveRecord parse r ks tz).datetime_value = some (attachDefault tz dt) ∧
    (dt.tzinfo = none →
      (resolveRecord parse r ks tz).datetime_value = some ⟨dt.wall, some tz⟩) ∧
    (∀ o : Tz, dt.tzinfo = some o →
      (resolveRecord parse r ks tz).datetime_value = some dt) := by
  induction ks with
  | nil => simp [resolveRecord] at hk
  | cons k0 rest ih =>
    rcases hg : recordGet r k0 with _ | v0
    · simp only [resolveRecord, hg] at hk ⊢
      exact ih hk
    · rcases hp0 : parse (adjustExifDate v0) with _ | dt0
      · simp only [resolveRecord, hg, hp0] at hk ⊢
        exact ih hk
      · simp only [resolveRecord, hg, hp0, Option.some.injEq] at hk ⊢
        subst hk
        rw [hg] at hv
        injection hv with hv
        subst hv
        rw [hp0] at hp
        injection hp with hp
        subst hp
        refine ⟨rfl, fun hnone => ?_, fun o ho => ?_⟩
        · cases dt0 with
          | mk w t =>
            simp only at hnone
            subst hnone
            simp [attachDefault, PyDatetime.replaceTz]
        · simp [attachDefault, ho]

theorem resolve_timezone_attachment_witness :
    (resolveRecord parseW recW ["EXIF:DateTimeOriginal"] utcTz).datetime_value
      = some ⟨civilToEpochMicros 2022 1 2 3 4 5, some utcTz⟩ := by
  have h := resolve_timezone_attachment parseW recW ["EXIF:DateTimeOriginal"] utcTz
    "EXIF:DateTimeOriginal" "2022:01:02 03:04:05" ⟨civilToEpochMicros 2022 1 2 3 4 5, none⟩
    (by decide) rfl (by decide)
  exact h.2.1 rfl

/-- C7: a date-parse failure is recovered locally and never surfaces:
the resolver is a total function returning one candidate per input
record, a tag that fails to parse simply falls through to the next tag
in priority order, and when every tag fails the record's candidate is
the empty one rather than an error. -/
theorem parse_failure_recovered (parse : String → Option PyDatetime)
    (dict_list : List (Option Record)) (ks : List String) (tz : Tz) :
    (getDatetimeValueByKey parse dict_list ks tz).length = dict_list.length ∧
    (∀ (r : Record) (k : String) (rest : List String), tagFails parse r k →
      resolveRecord parse r (k :: rest) tz = resolveRecord parse r rest tz) ∧
    (∀ r : Record, (∀ k ∈ ks, tagFails parse r k) →
      resolveRecord parse r ks tz = ⟨none, none, none⟩) := by
  refine ⟨by simp [getDatetimeValueByKey], ?_, ?_⟩
  · intro r k rest hf
    rcases hg : recordGet r k with _ | v
    · simp [resolveRecord, hg]
    · simp only [tagFails, hg] at hf
      simp [resolveRecord, hg, hf]
  · intro r
    induction ks with
    | nil => intro _; simp [resolveRecord]
    | cons k rest ih =>
      intro hall
      have hf : tagFails parse r k := hall k (List.mem_cons_self _ _)
      have ih' := ih (fun q hq => hall q (List.mem_cons_of_mem _ hq))
      rcases hg : recordGet r k with _ | v
      · simpa only [resolveRecord, hg] using ih'
      · simp only [tagFails, hg] at hf
        simpa only [resolveRecord, hg, hf] using ih'

theorem parse_failure_recovered_witness :
    (getDatetimeValueByKey parse2W [some rW, none] ["A", "B"] utcTz).length = 2 ∧
    resolveRecord parse2W rW ["A", "B"] utcTz = resolveRecord parse2W rW ["B"] utcTz := by
  have h := parse_failure_recovered parse2W [some rW, none] ["A", "B"] utcTz
  exact ⟨h.1, h.2.1 rW "A" ["B"] (by decide)⟩

/-- C6 (amended): the normalization pass rewrites every (left-to-right,
non-overlapping) `YYYY:MM:DD` occurrence in the raw value to
`YYYY-MM-DD` before the flexible parser is invoked — in particular a
date prefix is rewritten, with the scan continuing on the remainder;
and the scenario record `{"EXIF:DateTimeOriginal": "2022:01:02
03:04:05"}` with priority `["EXIF:DateTimeOriginal"]` and default
timezone UTC yields the candidate with matched tag
`EXIF:DateTimeOriginal`, unchanged raw value `2022:01:02 03:04:05`,
and resolved instant 2022-01-02T03:04:05+00:00. -/
theorem adjustExifDate_rewrites_every_match (y1 y2 y3 y4 m1 m2 d1 d2 : Char)
    (rest : List Char)
    (hdig : exifDateCond y1 y2 y3 y4 ':' m1 m2 ':' d1 d2 = true)
    (parse : String → Option PyDatetime)
    (hparse : parse "2022-01-02 03:04:05" = some ⟨civilToEpochMicros 2022 1 2 3 4 5, none⟩) :
    adjustExifDate ⟨y1 :: y2 :: y3 :: y4 :: ':' :: m1 :: m2 :: ':' :: d1 :: d2 :: rest⟩
      = ⟨y1 :: y2 :: y3 :: y4 :: '-' :: m1 :: m2 :: '-' :: d1 :: d2 :: subExifDate rest⟩ ∧
    resolveRecord parse recW ["EXIF:DateTimeOriginal"] utcTz
      = ⟨some "EXIF:DateTimeOriginal", some "2022:01:02 03:04:05",
          some ⟨civilToEpochMicros 2022 1 2 3 4 5, some utcTz⟩⟩ := by
  constructor
  · exact congrArg String.mk (subExifDate_cons_match y1 y2 y3 y4 ':' m1 m2 ':' d1 d2 rest hdig)
  · have hadj : adjustExifDate "2022:01:02 03:04:05" = "2022-01-02 03:04:05" := by decide
    have hget : recordGet recW "EXIF:DateTimeOriginal" = some "2022:01:02 03:04:05" := rfl
    simp only [resolveRecord, hget, hadj, hparse]
    simp [attachDefault, PyDatetime.replaceTz, Option.isNone]

/-- C6 counterexample: the claim's "rewrites a `YYYY:MM:DD` date
prefix ..., leaving the remainder of the string unchanged" is false on
`"2022:01:02 2022:01:02"`: the code's normalization also rewrites the
second date occurrence in the remainder. -/
theorem adjustExifDate_not_prefix_only :
    adjustExifDate "2022:01:02 2022:01:02" = "2022-01-02 2022-01-02" ∧
    specPrefixOnlyNormalize "2022:01:02 2022:01:02" = "2022-01-02 2022:01:02" ∧
    adjustExifDate "2022:01:02 2022:01:02" ≠ specPrefixOnlyNormalize "2022:01:02 2022:01:02" :=
  ⟨by decide, by decide, by decide⟩

theorem adjustExifDate_rewrites_every_match_witness :
    adjustExifDate "2022:01:02 03:04:05" = "2022-01-02 03:04:05" ∧
    resolveRecord parseW recW ["EXIF:DateTimeOriginal"] utcTz
      = ⟨some "EXIF:DateTimeOriginal", some "2022:01:02 03:04:05",
          some ⟨civilToEpochMicros 2022 1 2 3 4 5, some utcTz⟩⟩ := by
  have h := adjustExifDate_rewrites_every_match '2' '0' '2' '2' '0' '1' '0' '2'
    (' ' :: '0' :: '3' :: ':' :: '0' :: '4' :: ':' :: '0' :: '5' :: []) (by decide)
    parseW (by decide)
  exact ⟨h.1, h.2⟩

/-- C4 (amended): the read loop accumulates every line until the first
line whose whitespace-stripped value equals the sentinel `{ready}`
(equality of the stripped line, not substring containment), stops
reading there, and excludes that sentinel line — and everything after
it — from the text handed to the JSON parser. -/
theorem readUntilReady_sentinel (pre : List String) (line : String) (post : List String)
    (hpre : ∀ p ∈ pre, p ≠ "" ∧ pyStrip p ≠ "{ready}")
    (hline : pyStrip line = "{ready}") :
    readUntilReady (pre ++ line :: post) = some pre := by
  induction pre with
  | nil =>
    have hne : line ≠ "" := by
      intro h
      rw [h] at hline
      exact absurd hline (by decide)
    simp only [List.nil_append, readUntilReady, if_neg hne, if_pos hline]
  | cons p pre ih =>
    obtain ⟨hp1, hp2⟩ := hpre p (List.mem_cons_self _ _)
    have ih' := ih (fun q hq => hpre q (List.mem_cons_of_mem _ hq))
    simp only [List.cons_append, readUntilReady, if_neg hp1, if_neg hp2]
    rw [show pre.append (line :: post) = pre ++ line :: post from rfl, ih']
    rfl

/-- C4 counterexample: the claim's stop condition "a line exactly
equal to the sentinel `{ready}` (string equality of the line)" is
false on the stream `[" {ready}\n"]`: the code stops at the
whitespace-padded line (returning an empty payload), while a loop
stopping only on exact equality would hit end-of-stream. -/
theorem readUntilReady_not_exact_equality :
    readUntilReady [" {ready}\n"] = some [] ∧
    readUntilReadyExact [" {ready}\n"] = none ∧
    (" {ready}\n" : String) ≠ "{ready}" :=
  ⟨rfl, rfl, by decide⟩

theorem readUntilReady_sentinel_witness :
    readUntilReady ["A\n", "{ready}\n", "junk"] = some ["A\n"] :=
  readUntilReady_sentinel ["A\n"] "{ready}\n" ["junk"] (by decide) (by decide)

/-- C1: whenever `execute_on_files` returns a result list, that list
has the length of the input path list, its `i`-th element is the
"no data" marker `none` exactly when path `i` did not exist, and the
elements at mask-true positions are the worker's parsed records, in
the order the existing paths were sent (the first `countTrue`-many
records of the parsed array) — input order and length are preserved. -/
theorem executeOnFiles_order_and_length (et : ExifTool)
    (jsonParse : String → Option (List Record)) (stdoutLines : List String)
    (pathExists : String → Bool) (fps : List String) (res : List (Option Record))
    (h : executeOnFiles et jsonParse stdoutLines pathExists fps = .ok res) :
    res.length = fps.length ∧
    (∀ (i : Nat) (h1 : i < fps.length) (h2 : i < res.length),
      (res[i] = none ↔ pathExists fps[i] = false)) ∧
    (fps = [] → res = []) ∧
    (∀ (lines_list : List String) (result_list : List Record),
      readUntilReady stdoutLines = some lines_list →
      jsonParse (String.join lines_list) = some result_list →
      fps ≠ [] →
      res.filterMap id = result_list.take (countTrue (fps.map pathExists))) := by
  rcases hpp : et.process with _ | p
  · simp only [executeOnFiles, hpp] at h
    exact Except.noConfusion h
  · simp only [executeOnFiles, hpp] at h
    split at h
    · simp at h
    split at h
    next hemp =>
      have hfps : fps = [] := by
        rcases fps with _ | ⟨q, qs⟩
        · rfl
        · simp [List.isEmpty] at hemp
      injection h with h
      subst hfps
      subst h
      exact ⟨rfl, by intro i h1 _; simp at h1, fun _ => rfl, fun _ _ _ _ hne => absurd rfl hne⟩
    next hemp =>
      have hne : fps ≠ [] := by
        intro hh
        subst hh
        simp at hemp
      split at h
      · simp at h
      split at h
      · simp at h
      next lines_list hread =>
        split at h
        · simp at h
        next result_list hjson =>
          split at h
          · simp at h
          next full hre =>
            injection h with h
            subst h
            refine ⟨?_, ?_, fun hh => absurd hh hne, ?_⟩
            · rw [reexpand_length (fps.map pathExists) result_list full hre]
              exact List.length_map _ _
            · intro i h1 h2
              have hm : i < (fps.map pathExists).length := by
                rw [List.length_map]
                exact h1
              rw [reexpand_get (fps.map pathExists) result_list full hre i hm h2]
              constructor
              · intro hg
                rw [List.getElem_map] at hg
                exact hg
              · intro hg
                rw [List.getElem_map]
                exact hg
            · intro l' r' hread' hjson' _
              rw [hread] at hread'
              injection hread' with hread'
              subst hread'
              rw [hjson] at hjson'
              injection hjson' with hjson'
              subst hjson'
              exact reexpand_filterMap (fps.map pathExists) result_list full hre

theorem executeOnFiles_order_and_length_witness :
    executeOnFiles etW jsonParseW linesW pexistsW fpsW = .ok resW ∧
    resW.length = fpsW.length := by
  have h : executeOnFiles etW jsonParseW linesW pexistsW fpsW = .ok resW := rfl
  exact ⟨h, (executeOnFiles_order_and_length etW jsonParseW linesW pexistsW fpsW resW h).1⟩

/-- C5: within an open session with connected streams,
`execute_on_files` raises the `AllFilesMissing` condition
(`FileNotFoundError`) exactly when the input path list is non-empty
and every path in it is nonexistent; an empty input list instead
returns an empty result immediately, independently of the worker
stream and the JSON parser (no worker interaction); and a batch with
at least one existing path never raises `AllFilesMissing`. -/
theorem allFilesMissing_iff (et : ExifTool) (p : ProcHandle)
    (jsonParse : String → Option (List Record)) (stdoutLines : List String)
    (pathExists : String → Bool) (fps : List String)
    (hp : et.process = some p) (hin : p.stdinOk = true) (hout : p.stdoutOk = true) :
    (executeOnFiles et jsonParse stdoutLines pathExists fps = .error .allFilesMissing
      ↔ fps ≠ [] ∧ ∀ q ∈ fps, pathExists q = false) ∧
    (fps = [] → executeOnFiles et jsonParse stdoutLines pathExists fps = .ok []) ∧
    ((∃ q ∈ fps, pathExists q = true) →
      executeOnFiles et jsonParse stdoutLines pathExists fps ≠ .error .allFilesMissing) := by
  rcases p with ⟨si, so⟩
  simp only at hin hout
  subst hin
  subst hout
  have hmain : executeOnFiles et jsonParse stdoutLines pathExists fps = .error .allFilesMissing
      ↔ fps ≠ [] ∧ ∀ q ∈ fps, pathExists q = false := by
    simp only [executeOnFiles, hp, Bool.not_true, Bool.or_self, Bool.false_eq_true, if_false]
    rcases fps with _ | ⟨q, qs⟩
    · simp
    · rw [show (q :: qs).isEmpty = false from rfl]
      simp only [Bool.false_eq_true, if_false, ne_eq, reduceCtorEq, not_false_eq_true, true_and]
      by_cases hall : ((q :: qs).filter pathExists).isEmpty
      · rw [if_pos hall]
        have : ∀ x ∈ q :: qs, pathExists x = false := by
          rw [List.isEmpty_iff] at hall
          intro x hx
          by_contra hcon
          have hxt : pathExists x = true := by
            cases hxe : pathExists x
            · exact absurd hxe hcon
            · rfl
          have : x ∈ (q :: qs).filter pathExists := List.mem_filter.mpr ⟨hx, hxt⟩
          rw [hall] at this
          exact absurd this (List.not_mem_nil x)
        exact ⟨fun _ => this, fun _ => rfl⟩
      · rw [if_neg hall]
        constructor
        · intro hcontra
          split at hcontra
          · exact absurd hcontra (by simp)
          · split at hcontra
            · exact absurd hcontra (by simp)
            · split at hcontra
              · exact absurd hcontra (by simp)
              · exact absurd hcontra (by simp)
        · intro hforall
          exfalso
          apply hall
          rw [List.isEmpty_iff, List.filter_eq_nil_iff]
          intro a ha
          rw [hforall a ha]
          simp
  refine ⟨hmain, ?_, ?_⟩
  · intro hfps
    subst hfps
    simp [executeOnFiles, hp]
  · intro hex hcontra
    obtain ⟨q, hq, hqt⟩ := hex
    have := (hmain.mp hcontra).2 q hq
    rw [hqt] at this
    exact Bool.noConfusion this

theorem allFilesMissing_iff_witness :
    executeOnFiles etW jsonParseW linesW (fun _ => false) ["x", "y"] = .error .allFilesMissing ∧
    executeOnFiles etW jsonParseW linesW (fun _ => false) [] = .ok [] := by
  have h := allFilesMissing_iff etW ⟨true, true⟩ jsonParseW linesW (fun _ => false) ["x", "y"] rfl rfl rfl
  have h2 := allFilesMissing_iff etW ⟨true, true⟩ jsonParseW linesW (fun _ => false) [] rfl rfl rfl
  exact ⟨h.1.mpr ⟨by decide, by decide⟩, h2.2.1 rfl⟩

/-- C9: the re-expansion step of `execute_on_files` is total only when
the parsed JSON array has at least one record per existing (mask-true)
path: with fewer records, `result_list.pop(0)` is evaluated on an
empty list and the call fails with the unguarded `IndexError` rather
than a protocol-level error; with enough records the call returns a
result list. -/
theorem pop_requires_enough_records (et : ExifTool) (p : ProcHandle)
    (jsonParse : String → Option (List Record)) (stdoutLines : List String)
    (pathExists : String → Bool) (fps : List String)
    (lines_list : List String) (result_list : List Record)
    (hp : et.process = some p) (hin : p.stdinOk = true) (hout : p.stdoutOk = true)
    (hne : fps.isEmpty = false) (hex : (fps.filter pathExists).isEmpty = false)
    (hread : readUntilReady stdoutLines = some lines_list)
    (hjson : jsonParse (String.join lines_list) = some result_list) :
    (result_list.length < countTrue (fps.map pathExists) →
      executeOnFiles et jsonParse stdoutLines pathExists fps = .error .indexError) ∧
    (countTrue (fps.map pathExists) ≤ result_list.length →
      ∀ e : ExifErr, executeOnFiles et jsonParse stdoutLines pathExists fps ≠ .error e) := by
  rcases p with ⟨si, so⟩
  simp only at hin hout
  subst hin
  subst hout
  have hunfold : executeOnFiles et jsonParse stdoutLines pathExists fps
      = match reexpand (fps.map pathExists) result_list with
        | none => .error .indexError
        | some full_result_list => .ok full_result_list := by
    simp only [executeOnFiles, hp, Bool.not_true, Bool.or_self, Bool.false_eq_true, if_false,
      hne, hex, hread, hjson]
  constructor
  · intro hlt
    rw [hunfold, (reexpand_eq_none_iff (fps.map pathExists) result_list).mpr hlt]
  · intro hle e
    rcases hre : reexpand (fps.map pathExists) result_list with _ | full
    · rw [reexpand_eq_none_iff] at hre
      omega
    · rw [hunfold, hre]
      exact fun hc => Except.noConfusion hc

theorem pop_requires_enough_records_witness :
    executeOnFiles etW jsonParseEmptyW linesW (fun _ => true) ["a"] = .error .indexError := by
  exact (pop_requires_enough_records etW ⟨true, true⟩ jsonParseEmptyW linesW (fun _ => true)
    ["a"] ["REC\n"] [] rfl rfl rfl rfl rfl rfl rfl).1 (by decide)

/-- C8: for every resolved (timezone-aware) instant and configured
display timezone, the UNIX-epoch output is obtained by shifting the
instant's wall clock into the display timezone, dropping the offset,
reinterpreting that wall clock as UTC and taking its epoch value with
six fractional digits — i.e. the true epoch value of the instant plus
the display offset, not the epoch value of the original instant. -/
theorem naive_local_epoch (c : DatetimeKeyValue) (dt : PyDatetime) (o local_tz : Tz)
    (hdt : c.datetime_value = some dt) (ho : dt.tzinfo = some o) :
    localObjOfCandidate local_tz c = some ⟨dt.wall - o.offset + local_tz.offset, none⟩ ∧
    localUnixOfObj (localObjOfCandidate local_tz c)
      = some (formatMicros6 (dt.wall - o.offset + local_tz.offset)) ∧
    localUnixOfObj (localObjOfCandidate local_tz c)
      = (dt.timestamp?).map (fun t => formatMicros6 (t + local_tz.offset)) := by
  have h1 : localObjOfCandidate local_tz c = some ⟨dt.wall - o.offset + local_tz.offset, none⟩ := by
    simp [localObjOfCandidate, hdt, PyDatetime.astimezone?, ho, PyDatetime.replaceTz]
  refine ⟨h1, ?_, ?_⟩
  · rw [h1]
    simp [localUnixOfObj, PyDatetime.replaceTz, PyDatetime.timestamp?, utcTz]
  · rw [h1]
    simp [localUnixOfObj, PyDatetime.replaceTz, PyDatetime.timestamp?, utcTz, ho]

theorem naive_local_epoch_witness :
    localUnixOfObj (localObjOfCandidate ⟨32400000000⟩
        ⟨some "EXIF:DateTimeOriginal", some "2022:01:02 03:04:05",
          some ⟨civilToEpochMicros 2022 1 2 3 4 5, some utcTz⟩⟩)
      = some "1641125045.000000" ∧
    formatMicros6 (civilToEpochMicros 2022 1 2 12 4 5) = "1641125045.000000" ∧
    formatMicros6 (civilToEpochMicros 2022 1 2 3 4 5) = "1641092645.000000" := by
  have h := naive_local_epoch
    ⟨some "EXIF:DateTimeOriginal", some "2022:01:02 03:04:05",
      some ⟨civilToEpochMicros 2022 1 2 3 4 5, some utcTz⟩⟩
    ⟨civilToEpochMicros 2022 1 2 3 4 5, some utcTz⟩ utcTz ⟨32400000000⟩ rfl rfl
  refine ⟨?_, by decide, by decide⟩
  rw [h.2.1]
  decide

/-- C10: an `ExifTool` session object is single-use: `__exit__` leaves
`__process` untouched (never resets it to `None`), so once an instance
has been entered, every later `__enter__` — including after an
intervening `__exit__` — raises `RuntimeError` ("ExifTool context
already entered"); a closed session can never be reopened. -/
theorem session_single_use (et et' : ExifTool) (h : et.enterCtx = .ok et') :
    et'.exitCtx.process = et'.process ∧
    et'.exitCtx.enterCtx = .error .alreadyEntered ∧
    (∀ s : ExifTool, s.process.isSome = true →
      s.exitCtx.enterCtx = .error .alreadyEntered) := by
  have hexit : ∀ s : ExifTool, s.exitCtx = s := by
    intro s
    unfold ExifTool.exitCtx
    split <;> rfl
  have hgen : ∀ s : ExifTool, s.process.isSome = true →
      s.exitCtx.enterCtx = .error .alreadyEntered := by
    intro s hs
    rcases hsp : s.process with _ | ph
    · rw [hsp] at hs
      exact absurd hs (by simp)
    · rw [hexit s]
      simp [ExifTool.enterCtx, hsp]
  rcases hep : et.process with _ | ph
  · simp only [ExifTool.enterCtx, hep] at h
    injection h with h
    subst h
    exact ⟨by rw [hexit], hgen _ (by simp), hgen⟩
  · simp only [ExifTool.enterCtx, hep] at h
    exact Except.noConfusion h

theorem session_single_use_witness :
    (ExifTool.exitCtx ⟨[], some ⟨true, true⟩⟩).enterCtx = .error .alreadyEntered := by
  exact (session_single_use ⟨[], none⟩ ⟨[], some ⟨true, true⟩⟩ rfl).2.1
